import Mathlib

/-!
Verification of the oscilloscope acquisition-to-channel core.

The firmware packetizer is embedded from `src/firmware/main/main.ino`
(the `loop` function, lines 45-79).  The host-side components (stream
decoder, channel registry, math engine, measurement subsystem) are not
present under `src/`; they are modelled from the specification, as noted
on each such definition.

Machine integers are embedded as `Nat` with explicit `% 256` where the
C `byte` (uint8_t) truncation happens; C bitwise operators `&`, `|`,
`<<`, `>>` become `&&&`, `|||`, `<<<`, `>>>` on `Nat`.
-/

/-- The packing step of the firmware `loop` (main.ino lines 62-74):
`packedData[0] = samples[0] & 0xFF;`
`packedData[1] = (samples[0] >> 8) & 0x03;`
`packedData[1] |= (samples[1] & 0x3F) << 2;`
`packedData[2] = (samples[1] >> 6) & 0x0F;`
`packedData[2] |= (samples[2] & 0x0F) << 4;`
`packedData[3] = (samples[2] >> 4) & 0x3F;`
`packedData[3] |= (samples[3] & 0x03) << 6;`
`packedData[4] = (samples[3] >> 2) & 0xFF;`
Each store into the `byte` array truncates modulo 256; the `|=` reads the
previously stored byte back and ors into it. -/
def packBytes (s0 s1 s2 s3 : Nat) : List Nat :=
  [(s0 &&& 0xFF) % 256,
   (((s0 >>> 8) &&& 0x03) % 256 ||| ((s1 &&& 0x3F) <<< 2)) % 256,
   (((s1 >>> 6) &&& 0x0F) % 256 ||| ((s2 &&& 0x0F) <<< 4)) % 256,
   (((s2 >>> 4) &&& 0x3F) % 256 ||| ((s3 &&& 0x03) <<< 6)) % 256,
   ((s3 >>> 2) &&& 0xFF) % 256]

/-- The firmware `loop` as a stream function: each iteration consumes four
samples, packs them, and writes the five packed bytes to the serial port
(main.ino lines 45-79); fewer than four pending samples produce no output
(the loop is still blocked waiting on the ADC). -/
def firmwareStream : List Nat → List Nat
  | s0 :: s1 :: s2 :: s3 :: rest => packBytes s0 s1 s2 s3 ++ firmwareStream rest
  | _ => []

/-- Modelled from the spec: the host-side Stream Decoder is not in `src/`;
spec section 4.2 defines its decode step as, given 5 aligned bytes `b0..b4`,
reconstructing the 4 unsigned 10-bit integers by exactly inverting the
packing of section 6 (bit 0 least significant). -/
def unpackBytes (b0 b1 b2 b3 b4 : Nat) : Nat × Nat × Nat × Nat :=
  (b0 ||| ((b1 &&& 0x03) <<< 8),
   (b1 >>> 2) ||| ((b2 &&& 0x0F) <<< 6),
   (b2 >>> 4) ||| ((b3 &&& 0x3F) <<< 4),
   (b3 >>> 6) ||| (b4 <<< 2))

/-- Modelled from the spec: the decode step applied to one aligned 5-byte
packet (spec section 4.2); anything other than exactly five bytes is not a
packet. -/
def decodePacket : List Nat → Option (Nat × Nat × Nat × Nat)
  | [b0, b1, b2, b3, b4] => some (unpackBytes b0 b1 b2 b3 b4)
  | _ => none

/-- Bit-slice as written in spec section 6: `x[hi:lo]` with bit 0 least
significant. -/
def bitSlice (x hi lo : Nat) : Nat :=
  (x >>> lo) &&& (2 ^ (hi - lo + 1) - 1)

/-- The byte layout exactly as written in spec section 6, for comparison
with the firmware packetizer:
byte0 = s0[7:0], byte1 = s0[9:8] | (s1[5:0] << 2),
byte2 = s1[9:6] | (s2[3:0] << 4), byte3 = s2[9:4] | (s3[1:0] << 6),
byte4 = s3[9:2]. -/
def layoutBytesSpec (s0 s1 s2 s3 : Nat) : List Nat :=
  [bitSlice s0 7 0,
   bitSlice s0 9 8 ||| (bitSlice s1 5 0 <<< 2),
   bitSlice s1 9 6 ||| (bitSlice s2 3 0 <<< 4),
   bitSlice s2 9 4 ||| (bitSlice s3 1 0 <<< 6),
   bitSlice s3 9 2]

lemma lor_shiftLeft_eq_add (k a b : Nat) (h : a < 2 ^ k) :
    a ||| (b <<< k) = b * 2 ^ k + a := by
  rw [Nat.shiftLeft_eq, Nat.lor_comm, Nat.mul_comm, ← Nat.mul_add_lt_is_or h]

lemma and_mask_eq_mod (x k : Nat) : x &&& (2 ^ k - 1) = x % 2 ^ k :=
  Nat.and_pow_two_sub_one_eq_mod x k

lemma lor_shift_eq (x y k m : Nat) (hm : 2 ^ k = m) (hx : x < m) :
    x ||| (y <<< k) = y * m + x := by
  subst hm
  exact lor_shiftLeft_eq_add k x y hx

lemma byte_pack_eq (x y k m : Nat) (hm : 2 ^ k = m) (hx : x < m)
    (hy : y * m + x < 256) :
    (x % 256 ||| (y <<< k)) % 256 = y * m + x := by
  subst hm
  have hx256 : x < 256 := by omega
  rw [Nat.mod_eq_of_lt hx256, lor_shiftLeft_eq_add k x y hx,
    Nat.mod_eq_of_lt hy]

lemma packB0 (s0 : Nat) : (s0 &&& 0xFF) % 256 = s0 % 256 := by
  rw [show (0xFF : Nat) = 2 ^ 8 - 1 from rfl, and_mask_eq_mod]
  norm_num

lemma packB1 (s0 s1 : Nat) :
    (((s0 >>> 8) &&& 0x03) % 256 ||| ((s1 &&& 0x3F) <<< 2)) % 256
      = s1 % 64 * 4 + s0 / 256 % 4 := by
  have e1 : (s0 >>> 8) &&& 0x03 = s0 / 256 % 4 := by
    rw [show (0x03 : Nat) = 2 ^ 2 - 1 from rfl, and_mask_eq_mod,
      Nat.shiftRight_eq_div_pow]
    norm_num
  have e2 : s1 &&& 0x3F = s1 % 64 := by
    rw [show (0x3F : Nat) = 2 ^ 6 - 1 from rfl, and_mask_eq_mod]
    norm_num
  rw [e1, e2, byte_pack_eq (s0 / 256 % 4) (s1 % 64) 2 4 (by norm_num)
    (by omega) (by omega)]

lemma packB2 (s1 s2 : Nat) :
    (((s1 >>> 6) &&& 0x0F) % 256 ||| ((s2 &&& 0x0F) <<< 4)) % 256
      = s2 % 16 * 16 + s1 / 64 % 16 := by
  have e1 : (s1 >>> 6) &&& 0x0F = s1 / 64 % 16 := by
    rw [show (0x0F : Nat) = 2 ^ 4 - 1 from rfl, and_mask_eq_mod,
      Nat.shiftRight_eq_div_pow]
    norm_num
  have e2 : s2 &&& 0x0F = s2 % 16 := by
    rw [show (0x0F : Nat) = 2 ^ 4 - 1 from rfl, and_mask_eq_mod]
    norm_num
  rw [e1, e2, byte_pack_eq (s1 / 64 % 16) (s2 % 16) 4 16 (by norm_num)
    (by omega) (by omega)]

lemma packB3 (s2 s3 : Nat) :
    (((s2 >>> 4) &&& 0x3F) % 256 ||| ((s3 &&& 0x03) <<< 6)) % 256
      = s3 % 4 * 64 + s2 / 16 % 64 := by
  have e1 : (s2 >>> 4) &&& 0x3F = s2 / 16 % 64 := by
    rw [show (0x3F : Nat) = 2 ^ 6 - 1 from rfl, and_mask_eq_mod,
      Nat.shiftRight_eq_div_pow]
    norm_num
  have e2 : s3 &&& 0x03 = s3 % 4 := by
    rw [show (0x03 : Nat) = 2 ^ 2 - 1 from rfl, and_mask_eq_mod]
    norm_num
  rw [e1, e2, byte_pack_eq (s2 / 16 % 64) (s3 % 4) 6 64 (by norm_num)
    (by omega) (by omega)]

lemma packB4 (s3 : Nat) : ((s3 >>> 2) &&& 0xFF) % 256 = s3 / 4 % 256 := by
  rw [show (0xFF : Nat) = 2 ^ 8 - 1 from rfl, and_mask_eq_mod,
    Nat.shiftRight_eq_div_pow]
  norm_num

/-- Arithmetic form of the packing step. -/
lemma packBytes_eq (s0 s1 s2 s3 : Nat) :
    packBytes s0 s1 s2 s3 =
      [s0 % 256,
       s1 % 64 * 4 + s0 / 256 % 4,
       s2 % 16 * 16 + s1 / 64 % 16,
       s3 % 4 * 64 + s2 / 16 % 64,
       s3 / 4 % 256] := by
  rw [packBytes, packB0, packB1, packB2, packB3, packB4]

/-- Arithmetic form of the decode step, for byte-valued inputs. -/
lemma unpackBytes_eq (b0 b1 b2 b3 b4 : Nat)
    (h0 : b0 < 256) (h1 : b1 < 256) (h2 : b2 < 256) (h3 : b3 < 256) :
    unpackBytes b0 b1 b2 b3 b4 =
      (b1 % 4 * 256 + b0,
       b2 % 16 * 64 + b1 / 4,
       b3 % 64 * 16 + b2 / 16,
       b4 * 4 + b3 / 64) := by
  have e1 : b1 &&& 0x03 = b1 % 4 := by
    rw [show (0x03 : Nat) = 2 ^ 2 - 1 from rfl, and_mask_eq_mod]
    norm_num
  have e2 : b2 &&& 0x0F = b2 % 16 := by
    rw [show (0x0F : Nat) = 2 ^ 4 - 1 from rfl, and_mask_eq_mod]
    norm_num
  have e3 : b3 &&& 0x3F = b3 % 64 := by
    rw [show (0x3F : Nat) = 2 ^ 6 - 1 from rfl, and_mask_eq_mod]
    norm_num
  have d1 : b1 >>> 2 = b1 / 4 := by
    rw [Nat.shiftRight_eq_div_pow]
  have d2 : b2 >>> 4 = b2 / 16 := by
    rw [Nat.shiftRight_eq_div_pow]
  have d3 : b3 >>> 6 = b3 / 64 := by
    rw [Nat.shiftRight_eq_div_pow]
  rw [unpackBytes, e1, e2, e3, d1, d2, d3,
    lor_shift_eq b0 (b1 % 4) 8 256 (by norm_num) h0,
    lor_shift_eq (b1 / 4) (b2 % 16) 6 64 (by norm_num) (by omega),
    lor_shift_eq (b2 / 16) (b3 % 64) 4 16 (by norm_num) (by omega),
    lor_shift_eq (b3 / 64) b4 2 4 (by norm_num) (by omega)]

/-- Every packed byte is below 256. -/
lemma packBytes_lt (s0 s1 s2 s3 : Nat) :
    ∀ b ∈ packBytes s0 s1 s2 s3, b < 256 := by
  rw [packBytes_eq]
  intro b hb
  simp only [List.mem_cons, List.not_mem_nil, or_false] at hb
  rcases hb with h | h | h | h | h <;> omega

/-- Shared round-trip fact: decoding a packed packet recovers in-range
samples. -/
lemma decode_pack_roundtrip (s0 s1 s2 s3 : Nat)
    (h0 : s0 < 1024) (h1 : s1 < 1024) (h2 : s2 < 1024) (h3 : s3 < 1024) :
    decodePacket (packBytes s0 s1 s2 s3) = some (s0, s1, s2, s3) := by
  rw [packBytes_eq, decodePacket, unpackBytes_eq _ _ _ _ _
    (by omega) (by omega) (by omega) (by omega)]
  have e0 : (s1 % 64 * 4 + s0 / 256 % 4) % 4 * 256 + s0 % 256 = s0 := by omega
  have e1 : (s2 % 16 * 16 + s1 / 64 % 16) % 16 * 64
      + (s1 % 64 * 4 + s0 / 256 % 4) / 4 = s1 := by omega
  have e2 : (s3 % 4 * 64 + s2 / 16 % 64) % 64 * 16
      + (s2 % 16 * 16 + s1 / 64 % 16) / 16 = s2 := by omega
  have e3 : s3 / 4 % 256 * 4 + (s3 % 4 * 64 + s2 / 16 % 64) / 64 = s3 := by
    omega
  rw [e0, e1, e2, e3]

lemma bitSlice_eq (x hi lo : Nat) :
    bitSlice x hi lo = x / 2 ^ lo % 2 ^ (hi - lo + 1) := by
  rw [bitSlice, and_mask_eq_mod, Nat.shiftRight_eq_div_pow]

/-- Arithmetic form of the section 6 layout. -/
lemma layoutBytesSpec_eq (s0 s1 s2 s3 : Nat) :
    layoutBytesSpec s0 s1 s2 s3 =
      [s0 % 256,
       s1 % 64 * 4 + s0 / 256 % 4,
       s2 % 16 * 16 + s1 / 64 % 16,
       s3 % 4 * 64 + s2 / 16 % 64,
       s3 / 4 % 256] := by
  have l0 : bitSlice s0 7 0 = s0 % 256 := by rw [bitSlice_eq]; norm_num
  have l10 : bitSlice s0 9 8 = s0 / 256 % 4 := by rw [bitSlice_eq]; norm_num
  have l11 : bitSlice s1 5 0 = s1 % 64 := by rw [bitSlice_eq]; norm_num
  have l20 : bitSlice s1 9 6 = s1 / 64 % 16 := by rw [bitSlice_eq]; norm_num
  have l21 : bitSlice s2 3 0 = s2 % 16 := by rw [bitSlice_eq]; norm_num
  have l30 : bitSlice s2 9 4 = s2 / 16 % 64 := by rw [bitSlice_eq]; norm_num
  have l31 : bitSlice s3 1 0 = s3 % 4 := by rw [bitSlice_eq]; norm_num
  have l4 : bitSlice s3 9 2 = s3 / 4 % 256 := by rw [bitSlice_eq]; norm_num
  rw [layoutBytesSpec, l0, l10, l11, l20, l21, l30, l31, l4,
    lor_shift_eq (s0 / 256 % 4) (s1 % 64) 2 4 (by norm_num) (by omega),
    lor_shift_eq (s1 / 64 % 16) (s2 % 16) 4 16 (by norm_num) (by omega),
    lor_shift_eq (s2 / 16 % 64) (s3 % 4) 6 64 (by norm_num) (by omega)]

lemma firmwareStream_concat (gs : List (Nat × Nat × Nat × Nat)) :
    firmwareStream (gs.flatMap fun g => [g.1, g.2.1, g.2.2.1, g.2.2.2])
      = gs.flatMap fun g => packBytes g.1 g.2.1 g.2.2.1 g.2.2.2 := by
  induction gs with
  | nil => rfl
  | cons g t ih =>
    rcases g with ⟨a, b, c, d⟩
    simp only [List.flatMap_cons, List.cons_append, List.nil_append]
    rw [firmwareStream, ih]

/-- C1: for every quadruple of sample values in [0,1023], packing the four
samples into five bytes as the firmware loop does and then unpacking those
five bytes by exactly inverting the section 6 bit layout yields the
original quadruple. -/
theorem pack_then_decode_roundtrip (s0 s1 s2 s3 : Nat)
    (h0 : s0 < 1024) (h1 : s1 < 1024) (h2 : s2 < 1024) (h3 : s3 < 1024) :
    decodePacket (packBytes s0 s1 s2 s3) = some (s0, s1, s2, s3) :=
  decode_pack_roundtrip s0 s1 s2 s3 h0 h1 h2 h3

/-- Witness for C1: the end-to-end scenario of spec section 8 with samples
100, 200, 300, 400. -/
theorem pack_then_decode_roundtrip_witness :
    decodePacket (packBytes 100 200 300 400) = some (100, 200, 300, 400) :=
  pack_then_decode_roundtrip 100 200 300 400 (by decide) (by decide)
    (by decide) (by decide)

/-- C2: for every quadruple of samples in [0,1023], the five bytes produced
by the firmware packetizer equal exactly the section 6 layout. -/
theorem packetizer_matches_section6_layout (s0 s1 s2 s3 : Nat)
    (h0 : s0 < 1024) (h1 : s1 < 1024) (h2 : s2 < 1024) (h3 : s3 < 1024) :
    packBytes s0 s1 s2 s3 = layoutBytesSpec s0 s1 s2 s3 := by
  rw [packBytes_eq, layoutBytesSpec_eq]

/-- Witness for C2 at the concrete quadruple (100, 200, 300, 400). -/
theorem packetizer_matches_section6_layout_witness :
    packBytes 100 200 300 400 = layoutBytesSpec 100 200 300 400 :=
  packetizer_matches_section6_layout 100 200 300 400 (by decide) (by decide)
    (by decide) (by decide)

/-- C7: for every group of 4 consecutive samples consumed, the firmware
emits exactly one packet of exactly 5 bytes, and the output byte stream is
exactly the concatenation of one 5-byte packet per 4-sample group, in
arrival order. -/
theorem stream_is_packet_concatenation (gs : List (Nat × Nat × Nat × Nat)) :
    (firmwareStream (gs.flatMap fun g => [g.1, g.2.1, g.2.2.1, g.2.2.2])
        = gs.flatMap fun g => packBytes g.1 g.2.1 g.2.2.1 g.2.2.2)
    ∧ (firmwareStream (gs.flatMap fun g =>
        [g.1, g.2.1, g.2.2.1, g.2.2.2])).length = 5 * gs.length
    ∧ ∀ a b c d : Nat, (packBytes a b c d).length = 5 := by
  refine ⟨firmwareStream_concat gs, ?_, fun a b c d => rfl⟩
  rw [firmwareStream_concat gs]
  induction gs with
  | nil => rfl
  | cons g t ih =>
    rcases g with ⟨a, b, c, d⟩
    simp only [List.flatMap_cons, List.length_append, List.length_cons, ih]
    simp [packBytes]
    omega

/-- C10: the packed 5-byte output for any four 16-bit sample values equals
the output for the same samples reduced modulo 1024; no bit of one sample
can leak into another field even for out-of-range inputs. -/
theorem pack_depends_only_on_low10 (s0 s1 s2 s3 : Nat)
    (h0 : s0 < 65536) (h1 : s1 < 65536) (h2 : s2 < 65536) (h3 : s3 < 65536) :
    packBytes s0 s1 s2 s3
      = packBytes (s0 % 1024) (s1 % 1024) (s2 % 1024) (s3 % 1024) := by
  rw [packBytes_eq, packBytes_eq]
  simp only [List.cons.injEq, and_true]
  exact ⟨by omega, by omega, by omega, by omega, by omega⟩

/-- Witness for C10 at the out-of-range quadruple (65535, 1234, 4095, 1030):
packing them equals packing their low 10 bits. -/
theorem pack_depends_only_on_low10_witness :
    packBytes 65535 1234 4095 1030
      = packBytes (65535 % 1024) (1234 % 1024) (4095 % 1024) (1030 % 1024) :=
  pack_depends_only_on_low10 65535 1234 4095 1030 (by decide) (by decide)
    (by decide) (by decide)

/-- C9: the packing function restricted to quadruples with each sample in
[0,1023] is a bijection onto the 5-byte strings: it is injective, and every
5-byte value is the packet of some in-range quadruple. -/
theorem pack_bijective_on_range :
    (∀ s0 s1 s2 s3 t0 t1 t2 t3 : Nat,
      s0 < 1024 → s1 < 1024 → s2 < 1024 → s3 < 1024 →
      t0 < 1024 → t1 < 1024 → t2 < 1024 → t3 < 1024 →
      packBytes s0 s1 s2 s3 = packBytes t0 t1 t2 t3 →
      s0 = t0 ∧ s1 = t1 ∧ s2 = t2 ∧ s3 = t3)
    ∧ (∀ b0 b1 b2 b3 b4 : Nat,
      b0 < 256 → b1 < 256 → b2 < 256 → b3 < 256 → b4 < 256 →
      ∃ s0 s1 s2 s3 : Nat,
        s0 < 1024 ∧ s1 < 1024 ∧ s2 < 1024 ∧ s3 < 1024 ∧
        packBytes s0 s1 s2 s3 = [b0, b1, b2, b3, b4]) := by
  constructor
  · intro s0 s1 s2 s3 t0 t1 t2 t3 hs0 hs1 hs2 hs3 ht0 ht1 ht2 ht3 hpack
    have hd : decodePacket (packBytes s0 s1 s2 s3)
        = decodePacket (packBytes t0 t1 t2 t3) := by rw [hpack]
    rw [decode_pack_roundtrip s0 s1 s2 s3 hs0 hs1 hs2 hs3,
      decode_pack_roundtrip t0 t1 t2 t3 ht0 ht1 ht2 ht3] at hd
    have h := Option.some.inj hd
    exact ⟨congrArg (·.1) h, congrArg (·.2.1) h, congrArg (·.2.2.1) h,
      congrArg (·.2.2.2) h⟩
  · intro b0 b1 b2 b3 b4 h0 h1 h2 h3 h4
    refine ⟨b1 % 4 * 256 + b0, b2 % 16 * 64 + b1 / 4, b3 % 64 * 16 + b2 / 16,
      b4 * 4 + b3 / 64, by omega, by omega, by omega, by omega, ?_⟩
    rw [packBytes_eq]
    simp only [List.cons.injEq, and_true]
    exact ⟨by omega, by omega, by omega, by omega, by omega⟩

/-- Witness for C9: the 5-byte string (1, 2, 3, 4, 5) is the packet of an
in-range quadruple. -/
theorem pack_bijective_on_range_witness :
    ∃ s0 s1 s2 s3 : Nat,
      s0 < 1024 ∧ s1 < 1024 ∧ s2 < 1024 ∧ s3 < 1024 ∧
      packBytes s0 s1 s2 s3 = [1, 2, 3, 4, 5] :=
  pack_bijective_on_range.2 1 2 3 4 5 (by decide) (by decide) (by decide)
    (by decide) (by decide)

/-- Error kinds of spec section 7 that the channel registry and the
measurement subsystem surface synchronously; `UnknownChannelId` covers an
operation naming a channel id that is not live (the spec leaves this case
implicit). -/
inductive ScopeError where
  | NestingTooDeep
  | ChannelLimitReached
  | SlotsFull
  | BufferUnderrun
  | UnknownChannelId
deriving DecidableEq

/-- Modelled from the spec: the four point-wise operators of the math
engine (spec section 4.4). -/
inductive MathOperator where
  | addW
  | subW
  | mulW
  | divW
deriving DecidableEq

/-- Modelled from the spec: a derived channel record of the channel
registry (spec section 3): stable id, math_level, operator with operand
order flag, and exactly two operand channel references. -/
structure DerivedChannel where
  id : Nat
  math_level : Nat
  operator : MathOperator
  order_swapped : Bool
  operand_a : Nat
  operand_b : Nat
deriving DecidableEq

/-- Modelled from the spec: one of the metrics a measurement slot can be
bound to (spec section 3). -/
inductive Metric where
  | peakToPeak
  | meanV
  | rms
  | frequency
deriving DecidableEq

/-- Modelled from the spec: an occupied measurement slot binds a channel id
and a metric (spec section 3). -/
structure Measurement where
  channel_id : Nat
  metric : Metric
deriving DecidableEq

/-- Modelled from the spec: the registry and measurement state.  The two
physical channels have the fixed ids 0 and 1 and always exist; derived
channels live in `derived`; `nextId` is the next fresh channel id; the four
fixed measurement slots are `slotA..slotD` (indices 0..3), `none` = empty. -/
structure SysState where
  derived : List DerivedChannel
  nextId : Nat
  slotA : Option Measurement
  slotB : Option Measurement
  slotC : Option Measurement
  slotD : Option Measurement
deriving DecidableEq

/-- The initial state: no derived channels, all measurement slots empty;
ids 0 and 1 are taken by the physical channels so fresh ids start at 2. -/
def initState : SysState :=
  { derived := [], nextId := 2,
    slotA := none, slotB := none, slotC := none, slotD := none }

/-- Modelled from the spec: the math_level of a live channel; physical
channels (ids 0 and 1) fix it at 0 (spec section 3), a live derived
channel carries its stored level, a dead id has none. -/
def chanLevel (s : SysState) (cid : Nat) : Option Nat :=
  if cid = 0 ∨ cid = 1 then some 0
  else (s.derived.find? fun c => c.id == cid).map (fun c => c.math_level)

/-- Modelled from the spec, section 4.3: `create_derived` computes
`math_level = 1 + max(level(a), level(b))`, fails with `NestingTooDeep`
if `math_level > 1`, fails with `ChannelLimitReached` if 3 derived
channels already exist, and on success appends the new channel with a
fresh id and returns that id.  A failing call leaves the state unchanged
(spec section 7). -/
def create_derived (op : MathOperator) (ord : Bool) (a b : Nat)
    (s : SysState) : Except ScopeError Nat × SysState :=
  match chanLevel s a, chanLevel s b with
  | some la, some lb =>
    let lvl := 1 + max la lb
    if lvl > 1 then (.error .NestingTooDeep, s)
    else if 3 ≤ s.derived.length then (.error .ChannelLimitReached, s)
    else (.ok s.nextId,
      { s with derived := s.derived ++ [⟨s.nextId, lvl, op, ord, a, b⟩],
               nextId := s.nextId + 1 })
  | _, _ => (.error .UnknownChannelId, s)

/-- Clears a measurement slot when it is bound to the given channel id
(the cascade of `delete_derived`, spec section 4.3). -/
def clearIfBound (cid : Nat) (m : Option Measurement) : Option Measurement :=
  match m with
  | some meas => if meas.channel_id = cid then none else some meas
  | none => none

/-- Modelled from the spec, section 4.3: `delete_derived` removes a live
derived channel and cascades to delete any measurement slot bound to it;
physical channels cannot be deleted, and a dead id is rejected. -/
def delete_derived (cid : Nat) (s : SysState) :
    Except ScopeError Nat × SysState :=
  if s.derived.any fun c => c.id == cid then
    (.ok cid,
      { s with derived := s.derived.filter fun c => ¬ c.id == cid,
               slotA := clearIfBound cid s.slotA,
               slotB := clearIfBound cid s.slotB,
               slotC := clearIfBound cid s.slotC,
               slotD := clearIfBound cid s.slotD })
  else (.error .UnknownChannelId, s)

/-- Modelled from the spec, section 4.5: `add_measurement(channel_id,
metric)` fails with `SlotsFull` if all 4 slots are occupied; otherwise it
claims the lowest free slot index and returns it. -/
def add_measurement (cid : Nat) (m : Metric) (s : SysState) :
    Except ScopeError Nat × SysState :=
  if s.slotA = none then (.ok 0, { s with slotA := some ⟨cid, m⟩ })
  else if s.slotB = none then (.ok 1, { s with slotB := some ⟨cid, m⟩ })
  else if s.slotC = none then (.ok 2, { s with slotC := some ⟨cid, m⟩ })
  else if s.slotD = none then (.ok 3, { s with slotD := some ⟨cid, m⟩ })
  else (.error .SlotsFull, s)

/-- Modelled from the spec, section 4.5: `remove_measurement(slot_index)`
clears the slot unconditionally. -/
def remove_measurement (i : Fin 4) (s : SysState) :
    Except ScopeError Nat × SysState :=
  match i with
  | ⟨0, _⟩ => (.ok 0, { s with slotA := none })
  | ⟨1, _⟩ => (.ok 1, { s with slotB := none })
  | ⟨2, _⟩ => (.ok 2, { s with slotC := none })
  | ⟨3, _⟩ => (.ok 3, { s with slotD := none })

/-- The user-facing registry and measurement operations. -/
inductive RegOp where
  | createDerived (op : MathOperator) (ord : Bool) (a b : Nat)
  | deleteDerived (cid : Nat)
  | addMeasurement (cid : Nat) (m : Metric)
  | removeMeasurement (i : Fin 4)
deriving DecidableEq

/-- Applies one operation, returning its synchronous result and the next
state. -/
def applyOp (o : RegOp) (s : SysState) : Except ScopeError Nat × SysState :=
  match o with
  | .createDerived op ord a b => create_derived op ord a b s
  | .deleteDerived cid => delete_derived cid s
  | .addMeasurement cid m => add_measurement cid m s
  | .removeMeasurement i => remove_measurement i s

/-- Runs a sequence of operations from the initial state. -/
def runOps (ops : List RegOp) : SysState :=
  ops.foldl (fun s o => (applyOp o s).2) initState

/-- Reads a measurement slot by index. -/
def getSlot (s : SysState) (i : Fin 4) : Option Measurement :=
  match i with
  | ⟨0, _⟩ => s.slotA
  | ⟨1, _⟩ => s.slotB
  | ⟨2, _⟩ => s.slotC
  | ⟨3, _⟩ => s.slotD

/-- Registry invariant: fresh ids stay above the physical ids, every live
derived channel has math_level 1 and an id of its own range, and at most 3
derived channels are live. -/
def RegInv (s : SysState) : Prop :=
  2 ≤ s.nextId ∧ (∀ c ∈ s.derived, c.math_level = 1 ∧ 2 ≤ c.id)
    ∧ s.derived.length ≤ 3

lemma regInv_init : RegInv initState := by
  refine ⟨by decide, ?_, by simp [initState]⟩
  intro c hc
  simp [initState] at hc

lemma regInv_applyOp (o : RegOp) (s : SysState) (h : RegInv s) :
    RegInv (applyOp o s).2 := by
  obtain ⟨hn, hm, hl⟩ := h
  cases o with
  | createDerived op ord a b =>
    simp only [applyOp, create_derived]
    split
    · split
      · exact ⟨hn, hm, hl⟩
      · split
        · exact ⟨hn, hm, hl⟩
        · next la lb _ _ hlvl hlen =>
          refine ⟨?_, ?_, ?_⟩
          · dsimp only
            omega
          · dsimp only
            intro c hc
            rw [List.mem_append] at hc
            rcases hc with hc | hc
            · exact hm c hc
            · rw [List.mem_singleton] at hc
              subst hc
              refine ⟨?_, ?_⟩ <;> dsimp only <;> omega
          · dsimp only
            simp only [List.length_append, List.length_singleton]
            omega
    · exact ⟨hn, hm, hl⟩
  | deleteDerived cid =>
    simp only [applyOp, delete_derived]
    split
    · refine ⟨hn, ?_, ?_⟩
      · intro c hc
        exact hm c (List.mem_of_mem_filter hc)
      · exact le_trans (List.length_filter_le _ _) hl
    · exact ⟨hn, hm, hl⟩
  | addMeasurement cid m =>
    simp only [applyOp, add_measurement]
    split_ifs <;> exact ⟨hn, hm, hl⟩
  | removeMeasurement i =>
    simp only [applyOp, remove_measurement]
    rcases i with ⟨iv, hi⟩
    interval_cases iv <;> exact ⟨hn, hm, hl⟩

lemma regInv_runOps (ops : List RegOp) : RegInv (runOps ops) := by
  suffices h : ∀ s, RegInv s → RegInv (ops.foldl (fun s o => (applyOp o s).2) s) by
    exact h initState regInv_init
  induction ops with
  | nil => intro s hs; exact hs
  | cons o t ih =>
    intro s hs
    exact ih _ (regInv_applyOp o s hs)

lemma chanLevel_of_mem (s : SysState) (h : RegInv s) (c : DerivedChannel)
    (hc : c ∈ s.derived) : chanLevel s c.id = some 1 := by
  obtain ⟨hn, hm, hl⟩ := h
  have hid := (hm c hc).2
  rw [chanLevel, if_neg (by omega)]
  have hsome : (s.derived.find? fun d => d.id == c.id).isSome :=
    List.find?_isSome.mpr ⟨c, hc, by simp⟩
  obtain ⟨c', hc'⟩ := Option.isSome_iff_exists.mp hsome
  have hmem' := List.mem_of_find?_eq_some hc'
  rw [hc']
  simp only [Option.map_some']
  rw [(hm c' hmem').1]

lemma create_ok_iff (s : SysState) (op : MathOperator) (ord : Bool)
    (a b : Nat) :
    (∃ n s2, create_derived op ord a b s = (.ok n, s2)) ↔
      (chanLevel s a = some 0 ∧ chanLevel s b = some 0
        ∧ s.derived.length < 3) := by
  cases hA : chanLevel s a with
  | none =>
    simp only [create_derived, hA]
    constructor
    · rintro ⟨n, s2, hok⟩
      simp at hok
    · rintro ⟨ha0, _, _⟩
      exact absurd ha0 (by simp)
  | some la =>
    cases hB : chanLevel s b with
    | none =>
      simp only [create_derived, hA, hB]
      constructor
      · rintro ⟨n, s2, hok⟩
        simp at hok
      · rintro ⟨_, hb0, _⟩
        exact absurd hb0 (by simp)
    | some lb =>
      simp only [create_derived, hA, hB]
      constructor
      · rintro ⟨n, s2, hok⟩
        split_ifs at hok with h1 h2
        · simp at hok
        · simp at hok
        · refine ⟨?_, ?_, by omega⟩
          · have : la = 0 := by omega
            rw [this]
          · have : lb = 0 := by omega
            rw [this]
      · rintro ⟨ha0, hb0, hlen⟩
        have hla : la = 0 := Option.some.inj ha0
        have hlb : lb = 0 := Option.some.inj hb0
        subst hla
        subst hlb
        rw [if_neg (by omega), if_neg (by omega)]
        exact ⟨s.nextId, _, rfl⟩

lemma create_nesting (s : SysState) (hinv : RegInv s) (op : MathOperator)
    (ord : Bool) (a b : Nat)
    (hmem : ∃ c ∈ s.derived, c.id = a ∨ c.id = b)
    (hA : (chanLevel s a).isSome) (hB : (chanLevel s b).isSome) :
    (create_derived op ord a b s).1 = .error .NestingTooDeep := by
  obtain ⟨c, hc, hab⟩ := hmem
  obtain ⟨la, hla⟩ := Option.isSome_iff_exists.mp hA
  obtain ⟨lb, hlb⟩ := Option.isSome_iff_exists.mp hB
  have hone : la = 1 ∨ lb = 1 := by
    rcases hab with h | h
    · left
      have hl := chanLevel_of_mem s hinv c hc
      rw [h, hla] at hl
      exact Option.some.inj hl
    · right
      have hl := chanLevel_of_mem s hinv c hc
      rw [h, hlb] at hl
      exact Option.some.inj hl
  simp only [create_derived, hla, hlb]
  rw [if_pos (by rcases hone with h | h <;> omega)]

/-- C4: over every operation sequence, a create_derived call is accepted
iff both operand channels have math_level 0 and the derived-channel limit
is not reached; a creation whose operand is a live derived channel is
rejected with NestingTooDeep; and every live derived channel has
math_level 1. -/
theorem create_acceptance_iff_level_zero (ops : List RegOp)
    (op : MathOperator) (ord : Bool) (a b : Nat) :
    ((∃ n s2, create_derived op ord a b (runOps ops) = (.ok n, s2))
        ↔ (chanLevel (runOps ops) a = some 0
            ∧ chanLevel (runOps ops) b = some 0
            ∧ (runOps ops).derived.length < 3))
    ∧ ((∃ c ∈ (runOps ops).derived, c.id = a ∨ c.id = b) →
        (chanLevel (runOps ops) a).isSome →
        (chanLevel (runOps ops) b).isSome →
        (create_derived op ord a b (runOps ops)).1 = .error .NestingTooDeep)
    ∧ (∀ c ∈ (runOps ops).derived, c.math_level = 1) :=
  ⟨create_ok_iff (runOps ops) op ord a b,
   fun hm hA hB => create_nesting (runOps ops) (regInv_runOps ops)
     op ord a b hm hA hB,
   fun c hc => ((regInv_runOps ops).2.1 c hc).1⟩

/-- Witness for C4: after creating one derived channel (id 2) from the two
physical channels, a creation that uses it as an operand is rejected with
NestingTooDeep. -/
theorem create_acceptance_iff_level_zero_witness :
    (create_derived .addW false 2 0
        (runOps [.createDerived .addW false 0 1])).1
      = .error .NestingTooDeep :=
  (create_acceptance_iff_level_zero [.createDerived .addW false 0 1]
      .addW false 2 0).2.1 (by decide) (by decide) (by decide)

/-- Three create calls from the two physical channels: fills the derived
channel registry to its limit of 3. -/
def threeCreates : List RegOp :=
  [.createDerived .addW false 0 1, .createDerived .subW false 0 1,
   .createDerived .mulW false 0 1]

/-- Counterexample to C5 as stated: with 3 derived channels live, a further
create_derived call whose operand is a live derived channel fails with
NestingTooDeep, not with ChannelLimitReached (spec section 4.3 checks
nesting before the channel limit). -/
theorem fourth_create_not_always_limit_error :
    (runOps threeCreates).derived.length = 3
    ∧ (create_derived .addW false 2 0 (runOps threeCreates)).1
        = .error .NestingTooDeep
    ∧ ScopeError.NestingTooDeep ≠ ScopeError.ChannelLimitReached :=
  ⟨rfl, rfl, by decide⟩

/-- C5 amended: in every reachable state at most 3 derived channels exist;
whenever 3 are live, any create_derived whose operands both have
math_level 0 fails with ChannelLimitReached and changes nothing, and every
operation other than a delete_derived leaves the count at 3 (so creates
keep failing until a derived channel is deleted). -/
theorem derived_limit_behavior (ops : List RegOp) :
    (runOps ops).derived.length ≤ 3
    ∧ ((runOps ops).derived.length = 3 →
        (∀ (op : MathOperator) (ord : Bool) (a b : Nat),
          chanLevel (runOps ops) a = some 0 →
          chanLevel (runOps ops) b = some 0 →
          create_derived op ord a b (runOps ops)
            = (.error .ChannelLimitReached, runOps ops))
        ∧ (∀ o : RegOp, (∀ cid, o ≠ .deleteDerived cid) →
            ((applyOp o (runOps ops)).2).derived.length = 3)) := by
  refine ⟨(regInv_runOps ops).2.2, fun h3 => ⟨?_, ?_⟩⟩
  · intro op ord a b ha hb
    simp only [create_derived, ha, hb]
    rw [if_neg (by omega), if_pos (by omega)]
  · intro o ho
    cases o with
    | createDerived op ord a b =>
      simp only [applyOp, create_derived]
      split
      · split
        · exact h3
        · rw [if_pos (by omega)]
          exact h3
      · exact h3
    | deleteDerived cid => exact absurd rfl (ho cid)
    | addMeasurement cid m =>
      simp only [applyOp, add_measurement]
      split_ifs <;> exact h3
    | removeMeasurement i =>
      simp only [applyOp, remove_measurement]
      rcases i with ⟨iv, hi⟩
      interval_cases iv <;> exact h3

/-- Witness for the amended C5: with the registry full, a create from the
two physical channels fails with ChannelLimitReached and changes nothing. -/
theorem derived_limit_behavior_witness :
    create_derived .divW false 0 1 (runOps threeCreates)
      = (.error .ChannelLimitReached, runOps threeCreates) :=
  ((derived_limit_behavior threeCreates).2 rfl).1 .divW false 0 1 rfl rfl


lemma add_meas_slotA (s : SysState) (cid : Nat) (m : Metric)
    (hA : s.slotA = none) :
    add_measurement cid m s = (.ok 0, { s with slotA := some ⟨cid, m⟩ }) := by
  rw [add_measurement, if_pos hA]

lemma add_meas_slotB (s : SysState) (cid : Nat) (m : Metric)
    (vA : Measurement) (hA : s.slotA = some vA) (hB : s.slotB = none) :
    add_measurement cid m s = (.ok 1, { s with slotB := some ⟨cid, m⟩ }) := by
  rw [add_measurement, if_neg (by rw [hA]; simp), if_pos hB]

lemma add_meas_slotC (s : SysState) (cid : Nat) (m : Metric)
    (vA vB : Measurement) (hA : s.slotA = some vA) (hB : s.slotB = some vB)
    (hC : s.slotC = none) :
    add_measurement cid m s = (.ok 2, { s with slotC := some ⟨cid, m⟩ }) := by
  rw [add_measurement, if_neg (by rw [hA]; simp), if_neg (by rw [hB]; simp),
    if_pos hC]

lemma add_meas_slotD (s : SysState) (cid : Nat) (m : Metric)
    (vA vB vC : Measurement) (hA : s.slotA = some vA)
    (hB : s.slotB = some vB) (hC : s.slotC = some vC) (hD : s.slotD = none) :
    add_measurement cid m s = (.ok 3, { s with slotD := some ⟨cid, m⟩ }) := by
  rw [add_measurement, if_neg (by rw [hA]; simp), if_neg (by rw [hB]; simp),
    if_neg (by rw [hC]; simp), if_pos hD]

lemma add_meas_full (s : SysState) (cid : Nat) (m : Metric)
    (vA vB vC vD : Measurement) (hA : s.slotA = some vA)
    (hB : s.slotB = some vB) (hC : s.slotC = some vC)
    (hD : s.slotD = some vD) :
    add_measurement cid m s = (.error .SlotsFull, s) := by
  rw [add_measurement, if_neg (by rw [hA]; simp), if_neg (by rw [hB]; simp),
    if_neg (by rw [hC]; simp), if_neg (by rw [hD]; simp)]

/-- C6: add_measurement fails with SlotsFull exactly when all 4 slots are
occupied; otherwise it claims the lowest free slot index and stores the
measurement there; remove_measurement clears its slot, and after removing
slot i from a full subsystem a subsequent add reuses exactly index i. -/
theorem measurement_slot_discipline (s : SysState) (cid : Nat) (m : Metric) :
    ((add_measurement cid m s).1 = .error .SlotsFull ↔
      (s.slotA ≠ none ∧ s.slotB ≠ none ∧ s.slotC ≠ none ∧ s.slotD ≠ none))
    ∧ (¬ (s.slotA ≠ none ∧ s.slotB ≠ none ∧ s.slotC ≠ none
          ∧ s.slotD ≠ none) →
        ∃ i : Fin 4, (add_measurement cid m s).1 = .ok i.val)
    ∧ (∀ i : Fin 4, (add_measurement cid m s).1 = .ok i.val →
        getSlot s i = none ∧ (∀ j : Fin 4, j < i → getSlot s j ≠ none)
          ∧ getSlot (add_measurement cid m s).2 i = some ⟨cid, m⟩)
    ∧ (∀ i : Fin 4, getSlot (remove_measurement i s).2 i = none)
    ∧ ((s.slotA ≠ none ∧ s.slotB ≠ none ∧ s.slotC ≠ none ∧ s.slotD ≠ none) →
        ∀ i : Fin 4,
          (add_measurement cid m (remove_measurement i s).2).1
            = .ok i.val) := by
  refine ⟨?_, ?_, ?_, ?_, ?_⟩
  · constructor
    · intro hfull
      rcases hA : s.slotA with _ | vA
      · rw [add_meas_slotA s cid m hA] at hfull
        simp at hfull
      rcases hB : s.slotB with _ | vB
      · rw [add_meas_slotB s cid m vA hA hB] at hfull
        simp at hfull
      rcases hC : s.slotC with _ | vC
      · rw [add_meas_slotC s cid m vA vB hA hB hC] at hfull
        simp at hfull
      rcases hD : s.slotD with _ | vD
      · rw [add_meas_slotD s cid m vA vB vC hA hB hC hD] at hfull
        simp at hfull
      exact ⟨by simp, by simp, by simp, by simp⟩
    · rintro ⟨hA, hB, hC, hD⟩
      obtain ⟨vA, hA⟩ := Option.ne_none_iff_exists'.mp hA
      obtain ⟨vB, hB⟩ := Option.ne_none_iff_exists'.mp hB
      obtain ⟨vC, hC⟩ := Option.ne_none_iff_exists'.mp hC
      obtain ⟨vD, hD⟩ := Option.ne_none_iff_exists'.mp hD
      rw [add_meas_full s cid m vA vB vC vD hA hB hC hD]
  · intro hnot
    rcases hA : s.slotA with _ | vA
    · exact ⟨⟨0, by omega⟩, by rw [add_meas_slotA s cid m hA]⟩
    rcases hB : s.slotB with _ | vB
    · exact ⟨⟨1, by omega⟩, by rw [add_meas_slotB s cid m vA hA hB]⟩
    rcases hC : s.slotC with _ | vC
    · exact ⟨⟨2, by omega⟩, by rw [add_meas_slotC s cid m vA vB hA hB hC]⟩
    rcases hD : s.slotD with _ | vD
    · exact ⟨⟨3, by omega⟩,
        by rw [add_meas_slotD s cid m vA vB vC hA hB hC hD]⟩
    exact absurd ⟨by simp [hA], by simp [hB], by simp [hC],
      by simp [hD]⟩ hnot
  · intro i hok
    rcases hA : s.slotA with _ | vA
    · rw [add_meas_slotA s cid m hA] at hok ⊢
      have hi : i = ⟨0, by omega⟩ := Fin.ext (Except.ok.inj hok).symm
      subst hi
      exact ⟨hA, fun j hj => absurd (show (j : Nat) < 0 from hj)
        (by omega), rfl⟩
    rcases hB : s.slotB with _ | vB
    · rw [add_meas_slotB s cid m vA hA hB] at hok ⊢
      have hi : i = ⟨1, by omega⟩ := Fin.ext (Except.ok.inj hok).symm
      subst hi
      refine ⟨hB, ?_, rfl⟩
      intro j hj
      rcases j with ⟨jv, hjlt⟩
      have hjv : jv < 1 := hj
      interval_cases jv
      · show s.slotA ≠ none
        rw [hA]
        simp
    rcases hC : s.slotC with _ | vC
    · rw [add_meas_slotC s cid m vA vB hA hB hC] at hok ⊢
      have hi : i = ⟨2, by omega⟩ := Fin.ext (Except.ok.inj hok).symm
      subst hi
      refine ⟨hC, ?_, rfl⟩
      intro j hj
      rcases j with ⟨jv, hjlt⟩
      have hjv : jv < 2 := hj
      interval_cases jv
      · show s.slotA ≠ none
        rw [hA]
        simp
      · show s.slotB ≠ none
        rw [hB]
        simp
    rcases hD : s.slotD with _ | vD
    · rw [add_meas_slotD s cid m vA vB vC hA hB hC hD] at hok ⊢
      have hi : i = ⟨3, by omega⟩ := Fin.ext (Except.ok.inj hok).symm
      subst hi
      refine ⟨hD, ?_, rfl⟩
      intro j hj
      rcases j with ⟨jv, hjlt⟩
      have hjv : jv < 3 := hj
      interval_cases jv
      · show s.slotA ≠ none
        rw [hA]
        simp
      · show s.slotB ≠ none
        rw [hB]
        simp
      · show s.slotC ≠ none
        rw [hC]
        simp
    · rw [add_meas_full s cid m vA vB vC vD hA hB hC hD] at hok
      simp at hok
  · intro i
    rcases i with ⟨iv, hlt⟩
    interval_cases iv <;> rfl
  · rintro ⟨hA, hB, hC, hD⟩ i
    obtain ⟨vA, hA⟩ := Option.ne_none_iff_exists'.mp hA
    obtain ⟨vB, hB⟩ := Option.ne_none_iff_exists'.mp hB
    obtain ⟨vC, hC⟩ := Option.ne_none_iff_exists'.mp hC
    obtain ⟨vD, hD⟩ := Option.ne_none_iff_exists'.mp hD
    rcases i with ⟨iv, hlt⟩
    interval_cases iv
    · rw [show (remove_measurement ⟨0, by omega⟩ s).2
          = { s with slotA := none } from rfl,
        add_meas_slotA _ cid m rfl]
    · rw [show (remove_measurement ⟨1, by omega⟩ s).2
          = { s with slotB := none } from rfl,
        add_meas_slotB { s with slotB := none } cid m vA hA rfl]
    · rw [show (remove_measurement ⟨2, by omega⟩ s).2
          = { s with slotC := none } from rfl,
        add_meas_slotC { s with slotC := none } cid m vA vB hA hB rfl]
    · rw [show (remove_measurement ⟨3, by omega⟩ s).2
          = { s with slotD := none } from rfl,
        add_meas_slotD { s with slotD := none } cid m vA vB vC hA hB hC
          rfl]

/-- A state with all four measurement slots occupied. -/
def fullMeasState : SysState :=
  { derived := [], nextId := 2,
    slotA := some ⟨0, .rms⟩, slotB := some ⟨0, .meanV⟩,
    slotC := some ⟨1, .peakToPeak⟩, slotD := some ⟨1, .frequency⟩ }

/-- Witness for C6: removing slot 2 from a full subsystem and adding again
reuses exactly index 2. -/
theorem measurement_slot_discipline_witness :
    (add_measurement 0 .rms
        (remove_measurement ⟨2, by omega⟩ fullMeasState).2).1 = .ok 2 :=
  (measurement_slot_discipline fullMeasState 0 .rms).2.2.2.2
    ⟨by decide, by decide, by decide, by decide⟩ ⟨2, by omega⟩

/-- Any operation either leaves the state unchanged or succeeds. -/
lemma applyOp_state_change (o : RegOp) (s : SysState) :
    (applyOp o s).2 = s ∨ ∃ n, (applyOp o s).1 = .ok n := by
  cases o with
  | createDerived op ord a b =>
    simp only [applyOp, create_derived]
    split
    · split
      · left; rfl
      · split
        · left; rfl
        · right; exact ⟨s.nextId, rfl⟩
    · left; rfl
  | deleteDerived cid =>
    simp only [applyOp, delete_derived]
    split
    · right; exact ⟨cid, rfl⟩
    · left; rfl
  | addMeasurement cid m =>
    simp only [applyOp, add_measurement]
    split_ifs
    · right; exact ⟨0, rfl⟩
    · right; exact ⟨1, rfl⟩
    · right; exact ⟨2, rfl⟩
    · right; exact ⟨3, rfl⟩
    · left; rfl
  | removeMeasurement i =>
    rcases i with ⟨iv, hlt⟩
    interval_cases iv
    · right; exact ⟨0, rfl⟩
    · right; exact ⟨1, rfl⟩
    · right; exact ⟨2, rfl⟩
    · right; exact ⟨3, rfl⟩

/-- C8: every registry or measurement operation that fails returns its
error synchronously and leaves the state exactly as it was. -/
theorem failed_op_leaves_state_unchanged (s : SysState) (o : RegOp)
    (e : ScopeError) (h : (applyOp o s).1 = .error e) :
    (applyOp o s).2 = s := by
  rcases applyOp_state_change o s with hs | ⟨n, hn⟩
  · exact hs
  · rw [hn] at h
    exact absurd h (by simp)

/-- Witness for C8: a create_derived call rejected with ChannelLimitReached
leaves the full registry untouched. -/
theorem failed_op_leaves_state_unchanged_witness :
    (applyOp (.createDerived .addW false 0 1) (runOps threeCreates)).2
      = runOps threeCreates :=
  failed_op_leaves_state_unchanged (runOps threeCreates)
    (.createDerived .addW false 0 1) .ChannelLimitReached rfl

/-- A math-channel sample value: an ordinary (finite) voltage or one of
the two signed infinities that the divide rules can produce. -/
inductive MathValue where
  | finite (x : ℚ)
  | posInf
  | negInf
deriving DecidableEq

/-- Modelled from the spec: the point-wise divide of the Math Engine is
not in `src/`; spec section 4.4 defines it per matched-index pair
(numerator, denominator) with explicit edge rules: 0/0 = 1, positive/0 =
+infinity, negative/0 = -infinity, otherwise standard real division.  It
is a total function: no input raises a fault. -/
def divideSample (n d : ℚ) : MathValue :=
  if n = 0 ∧ d = 0 then .finite 1
  else if d = 0 ∧ 0 < n then .posInf
  else if d = 0 ∧ n < 0 then .negInf
  else .finite (n / d)

/-- C3: the divide operator returns 1 on 0/0, +infinity on positive/0,
-infinity on negative/0, and the standard quotient otherwise; being a
total function into MathValue it never raises a fault. -/
theorem divide_edge_rules (n d : ℚ) :
    (n = 0 → d = 0 → divideSample n d = .finite 1)
    ∧ (d = 0 → 0 < n → divideSample n d = .posInf)
    ∧ (d = 0 → n < 0 → divideSample n d = .negInf)
    ∧ (d ≠ 0 → divideSample n d = .finite (n / d)) := by
  refine ⟨fun hn hd => ?_, fun hd hn => ?_, fun hd hn => ?_, fun hd => ?_⟩
  · rw [divideSample, if_pos ⟨hn, hd⟩]
  · rw [divideSample, if_neg (fun hc => (ne_of_gt hn) hc.1),
      if_pos ⟨hd, hn⟩]
  · rw [divideSample, if_neg (fun hc => (ne_of_lt hn) hc.1),
      if_neg (fun hc => (lt_asymm hn) hc.2), if_pos ⟨hd, hn⟩]
  · rw [divideSample, if_neg (fun hc => hd hc.2),
      if_neg (fun hc => hd hc.1), if_neg (fun hc => hd hc.1)]

/-- Witness for C3: the divide edge table of spec section 8. -/
theorem divide_edge_rules_witness :
    divideSample 0 0 = .finite 1 ∧ divideSample 5 0 = .posInf
      ∧ divideSample (-5) 0 = .negInf ∧ divideSample 6 3 = .finite 2 := by
  refine ⟨(divide_edge_rules 0 0).1 rfl rfl,
    (divide_edge_rules 5 0).2.1 rfl (by norm_num),
    (divide_edge_rules (-5) 0).2.2.1 rfl (by norm_num), ?_⟩
  rw [(divide_edge_rules 6 3).2.2.2 (by norm_num)]
  norm_num
